import Mathlib

/-!
Shallow embedding of the report pipeline of src/index.js (zenhub-tools).

The core of the script (lines 133-204 of src/index.js) is a pure transform
from a board snapshot and a flat issue collection to a textual report:
build an identity-to-pipeline index, classify every issue into a stage,
filter each stage by milestone, sum point estimates with lodash sumBy,
accumulate open/closed totals, and render lines.  We embed that transform
here; the network-fetch collaborators are out of scope.

JavaScript value subtleties that matter to the claims are modelled
explicitly: the value of an absent object field (undefined), milestone
null, lodash sumBy skipping undefined, and the NaN-producing cases of the
JS + operator.  JS numbers are modelled as Int (all arithmetic the script
performs on estimates is addition, and the report only needs printing).
-/

namespace ZenhubTools

/-- A JavaScript scalar as it flows through the point arithmetic of the
script: a number, null, undefined, or NaN. -/
inductive JVal : Type
  | num (n : Int)
  | null
  | undef
  | nan
  deriving DecidableEq

/-- The JS binary + operator in numeric context, on the values that can
reach it in the script: null coerces to 0, undefined and NaN produce NaN. -/
def jsAdd : JVal → JVal → JVal
  | JVal.num a, JVal.num b => JVal.num (a + b)
  | JVal.num a, JVal.null => JVal.num a
  | JVal.null, JVal.num b => JVal.num b
  | JVal.null, JVal.null => JVal.num 0
  | _, _ => JVal.nan

/-- How a JVal prints inside a JS template literal. -/
def JVal.render : JVal → String
  | JVal.num n => toString n
  | JVal.null => "null"
  | JVal.undef => "undefined"
  | JVal.nan => "NaN"

/-- The estimate field of an issue as delivered by the input contract:
a number, null, or absent (reading it yields undefined). -/
inductive EstVal : Type
  | num (n : Int)
  | null
  | undef
  deriving DecidableEq

/-- Reading an estimate field produces the corresponding JS value. -/
def EstVal.toJVal : EstVal → JVal
  | EstVal.num n => JVal.num n
  | EstVal.null => JVal.null
  | EstVal.undef => JVal.undef

structure Milestone where
  title : String
  deriving DecidableEq

structure Assignee where
  login : String
  deriving DecidableEq

/-- An issue record from the flattened Zenhub issue collection, with the
fields the script reads. -/
structure Issue where
  repo_id : Nat
  repo_name : String
  number : Nat
  title : String
  state : String
  pull_request : Bool
  milestone : Option Milestone
  estimate : EstVal
  assignee : Option Assignee
  html_url : String
  deriving DecidableEq

/-- An entry of a board pipeline's issue list: `{ repo_id, issue_number }`. -/
structure StageMembership where
  repo_id : Nat
  issue_number : Nat
  deriving DecidableEq

/-- A declared board pipeline: a name and its current issue placements. -/
structure PipelineDef where
  name : String
  issues : List StageMembership
  deriving DecidableEq

/-- The board snapshot: an ordered list of pipelines. -/
structure Board where
  pipelines : List PipelineDef
  deriving DecidableEq

/-- The repoIssuePipelineMap object.  The JS key is the string
`repo_id + "." + issue_number`, which is injective on pairs of naturals,
so the map is keyed by the pair directly. -/
def IndexMap : Type := Nat × Nat → Option Nat

/-- One assignment `repoIssuePipelineMap[key] = idx` (line 138). -/
def writeEntry (idx : Nat) (m : IndexMap) (s : StageMembership) : IndexMap :=
  fun k => if k = (s.repo_id, s.issue_number) then some idx else m k

/-- The traversal of board.pipelines (with its running index) that fills
the map: for pipeline number idx, every one of its memberships is written
with value idx, later pipelines overwriting earlier ones (lines 135-142). -/
def repoIssuePipelineMapFrom (idx : Nat) : List PipelineDef → IndexMap → IndexMap
  | [], m => m
  | p :: ps, m => repoIssuePipelineMapFrom (idx + 1) ps (p.issues.foldl (writeEntry idx) m)

/-- The finished repoIssuePipelineMap for a board, starting from the empty
object. -/
def repoIssuePipelineMap (b : Board) : IndexMap :=
  repoIssuePipelineMapFrom 0 b.pipelines (fun _ => none)

/-- A runtime stage: a name and the issues classified into it. -/
structure Stage where
  name : String
  issues : List Issue
  deriving DecidableEq

/-- richPipelines just after construction (lines 135-147): one empty stage
per declared pipeline, in board order, then the synthetic Closed stage. -/
def richPipelines (b : Board) : List Stage :=
  b.pipelines.map (fun p => { name := p.name, issues := [] })
    ++ [{ name := "Closed", issues := [] }]

/-- `richPipelines[j].issues.push(issue)`: append the issue to the issue
list of the stage at position j (identity when j is out of range, which
the script never does). -/
def pushIssue : List Stage → Nat → Issue → List Stage
  | [], _, _ => []
  | s :: rest, 0, i => { s with issues := s.issues ++ [i] } :: rest
  | s :: rest, Nat.succ n, i => s :: pushIssue rest n i

/-- The body of the classification loop (lines 149-162): drop pull
requests; push to the indexed stage when the identity is in the map and
the state is not "closed"; otherwise push to the last stage. -/
def classifyStep (m : IndexMap) (stages : List Stage) (issue : Issue) : List Stage :=
  if issue.pull_request then stages
  else
    match m (issue.repo_id, issue.number) with
    | some idx =>
        if issue.state ≠ "closed" then pushIssue stages idx issue
        else pushIssue stages (stages.length - 1) issue
    | none => pushIssue stages (stages.length - 1) issue

/-- The whole classification loop over the flat issue collection. -/
def classify (m : IndexMap) (stages : List Stage) (issues : List Issue) : List Stage :=
  issues.foldl (classifyStep m) stages

/-- The index an issue is routed to, P being the number of declared
pipelines (the position of the synthetic Closed stage). -/
def routeIdx (m : IndexMap) (p : Nat) (issue : Issue) : Nat :=
  match m (issue.repo_id, issue.number) with
  | some idx => if issue.state ≠ "closed" then idx else p
  | none => p

/-- The milestone filter predicate (lines 170-172): the issue has a
milestone object and its title strictly equals the target. -/
def milestoneMatch (target : String) (issue : Issue) : Bool :=
  match issue.milestone with
  | some ms => ms.title == target
  | none => false

/-- The filtered issue list of a stage. -/
def milestoneIssues (target : String) (s : Stage) : List Issue :=
  s.issues.filter (milestoneMatch target)

/-- lodash baseSum over the estimate values: undefined entries are
skipped; the first retained entry seeds the accumulator; later entries
are added with the JS + operator. -/
def baseSum : JVal → List EstVal → JVal
  | acc, [] => acc
  | acc, EstVal.undef :: rest => baseSum acc rest
  | JVal.undef, v :: rest => baseSum v.toJVal rest
  | acc, v :: rest => baseSum (jsAdd acc v.toJVal) rest

/-- lodash sumBy: 0 on an empty list, otherwise baseSum starting from an
undefined accumulator (so a nonempty list whose retained entries are all
skipped yields undefined, not 0). -/
def sumBy (l : List EstVal) : JVal :=
  if l.isEmpty then JVal.num 0 else baseSum JVal.undef l

/-- totalPoints of a stage (line 174). -/
def totalPoints (target : String) (s : Stage) : JVal :=
  sumBy ((milestoneIssues target s).map Issue.estimate)

/-- The running stats object (lines 164-167). -/
structure Stats where
  openPoints : JVal
  closedPoints : JVal
  deriving DecidableEq

/-- One stats update (lines 176-180): a stage named exactly "Done" or
exactly "Closed" feeds the closed total, any other the open total. -/
def statsStep (target : String) (st : Stats) (s : Stage) : Stats :=
  if s.name = "Done" ∨ s.name = "Closed" then
    { st with closedPoints := jsAdd st.closedPoints (totalPoints target s) }
  else
    { st with openPoints := jsAdd st.openPoints (totalPoints target s) }

/-- The stats after the loop over all stages. -/
def aggregate (target : String) (stages : List Stage) : Stats :=
  stages.foldl (statsStep target) { openPoints := JVal.num 0, closedPoints := JVal.num 0 }

/-- The assignee suffix (lines 190-193). -/
def assigneeString (a : Option Assignee) : String :=
  match a with
  | some x => " " ++ x.login
  | none => ""

/-- The two lines printed per filtered issue (lines 194-198). -/
def issueLines (issue : Issue) : List String :=
  [issue.repo_name ++ "#" ++ toString issue.number ++ ": " ++ issue.title
      ++ " [" ++ issue.estimate.toJVal.render ++ " pts]" ++ assigneeString issue.assignee,
    issue.html_url]

/-- `_.repeat("-", n)`. -/
def repeatDash (n : Nat) : String :=
  String.mk (List.replicate n '-')

/-- The lines printed for one stage (lines 182-201): header, underline,
body ("None" when the filtered list is empty), then a line holding a
single space. -/
def stageLines (target : String) (s : Stage) : List String :=
  [s.name ++ " - " ++ (totalPoints target s).render ++ " Points",
      repeatDash (s.name ++ " - " ++ (totalPoints target s).render ++ " Points").length]
    ++ (if (milestoneIssues target s).isEmpty then ["None"]
        else ((milestoneIssues target s).map issueLines).flatten)
    ++ [" "]

/-- The final line (line 204). -/
def totalLine (st : Stats) : String :=
  "Total: " ++ st.openPoints.render ++ " / " ++ (jsAdd st.closedPoints st.openPoints).render

/-- All lines the report loop prints for a given stage list, final total
included. -/
def reportLines (target : String) (stages : List Stage) : List String :=
  (stages.map (stageLines target)).flatten ++ [totalLine (aggregate target stages)]

/-- The whole core transform of main(): build the index, classify the
issues into the stages, and render. -/
def mainOutput (target : String) (b : Board) (issues : List Issue) : List String :=
  reportLines target (classify (repoIssuePipelineMap b) (richPipelines b) issues)

/-- The issue list of the stage at position j (empty when out of range). -/
def stageIssues : List Stage → Nat → List Issue
  | [], _ => []
  | s :: _, 0 => s.issues
  | _ :: rest, Nat.succ n => stageIssues rest n

/-- Whether an issue is a non-pull-request routed to stage k. -/
def routedTo (m : IndexMap) (p : Nat) (k : Nat) (issue : Issue) : Bool :=
  !issue.pull_request && (routeIdx m p issue == k)

/-- Whether a pipeline's declared issue list contains the given identity. -/
def memberOfPipeline (key : Nat × Nat) (p : PipelineDef) : Bool :=
  p.issues.any (fun s => (s.repo_id, s.issue_number) == key)

/-- Position (counting from idx) of the last pipeline in board order whose
declared issue list contains the identity, stated directly from the last
wins wording of the index builder contract. -/
def lastContainingFrom (idx : Nat) (key : Nat × Nat) : List PipelineDef → Option Nat
  | [] => none
  | p :: ps =>
    match lastContainingFrom (idx + 1) key ps with
    | some j => some j
    | none => if memberOfPipeline key p then some idx else none

/-- Folding the JS + operator over a list of values starting from 0: the
sum of totalPoints across stages. -/
def sumJVals (l : List JVal) : JVal := l.foldl jsAdd (JVal.num 0)

/-- Whether a JVal is an actual number or NaN (the only shapes the stats
accumulators can take, since they start at 0). -/
def JVal.numericShape : JVal → Bool
  | JVal.num _ => true
  | JVal.nan => true
  | _ => false

/-- The sum of the actual numbers in a list of estimate values, null and
absent entries skipped. -/
def numPart : List EstVal → Int
  | [] => 0
  | EstVal.num n :: rest => n + numPart rest
  | _ :: rest => numPart rest

/-- Whether some estimate value in the list is an actual number. -/
def hasNum : List EstVal → Bool
  | [] => false
  | EstVal.num _ :: _ => true
  | _ :: rest => hasNum rest

/-- The sum of the present numeric estimates of a list of issues. -/
def numericEstimateSum (l : List Issue) : Int :=
  numPart (l.map Issue.estimate)

/-- One stage section of the report renderer as the spec words it: header
line, an underline of dashes as long as the header, the body ("None" when
the filtered list is empty, otherwise two lines per issue), then the
separator line sep. -/
def specSection (sep : String) (name : String) (filtered : List Issue) (total : JVal) :
    List String :=
  [name ++ " - " ++ total.render ++ " Points",
      repeatDash (name ++ " - " ++ total.render ++ " Points").length]
    ++ (if filtered.isEmpty then ["None"] else (filtered.map issueLines).flatten)
    ++ [sep]

/-- The report renderer as the spec words it: a pure function from the
list of (name, filtered issues, totalPoints) tuples and the open/closed
totals to the report lines, the final line being Total: open / open plus
closed. -/
def specRender (sep : String) (sections : List (String × List Issue × JVal))
    (openT closedT : JVal) : List String :=
  (sections.map (fun t => specSection sep t.1 t.2.1 t.2.2)).flatten
    ++ ["Total: " ++ openT.render ++ " / " ++ (jsAdd openT closedT).render]

/-- The aggregated per-stage tuples the spec's renderer consumes. -/
def stageSections (target : String) (stages : List Stage) :
    List (String × List Issue × JVal) :=
  stages.map (fun s => (s.name, milestoneIssues target s, totalPoints target s))

/-- A two-pipeline sample board: issue (1, 10) sits in "In Progress",
issue (1, 11) sits in "Done". -/
def sampleBoard : Board :=
  { pipelines :=
      [{ name := "In Progress", issues := [{ repo_id := 1, issue_number := 10 }] },
        { name := "Done", issues := [{ repo_id := 1, issue_number := 11 }] }] }

/-- Sample issue A: open, placed in "In Progress", milestone v1, 3 points. -/
def sampleIssueA : Issue :=
  { repo_id := 1, repo_name := "r", number := 10, title := "A", state := "open",
    pull_request := false, milestone := some { title := "v1" },
    estimate := EstVal.num 3, assignee := none, html_url := "uA" }

/-- Sample issue B: closed, placed in "Done", milestone v1, 5 points. -/
def sampleIssueB : Issue :=
  { repo_id := 1, repo_name := "r", number := 11, title := "B", state := "closed",
    pull_request := false, milestone := some { title := "v1" },
    estimate := EstVal.num 5, assignee := none, html_url := "uB" }

/-- Sample issue C: closed, on no pipeline, milestone v1, 2 points. -/
def sampleIssueC : Issue :=
  { repo_id := 1, repo_name := "r", number := 12, title := "C", state := "closed",
    pull_request := false, milestone := some { title := "v1" },
    estimate := EstVal.num 2, assignee := none, html_url := "uC" }

/-- Sample issue D: a pull request placed in "In Progress". -/
def sampleIssueD : Issue :=
  { repo_id := 1, repo_name := "r", number := 10, title := "D", state := "open",
    pull_request := true, milestone := some { title := "v1" },
    estimate := EstVal.num 7, assignee := none, html_url := "uD" }

/-- Sample issue E: open, placed in "In Progress", no milestone. -/
def sampleIssueE : Issue :=
  { repo_id := 1, repo_name := "r", number := 10, title := "E", state := "open",
    pull_request := false, milestone := none,
    estimate := EstVal.num 4, assignee := none, html_url := "uE" }

/-- The sample flat issue collection. -/
def sampleIssues : List Issue :=
  [sampleIssueA, sampleIssueB, sampleIssueC]

/-- An issue matching milestone v1 whose estimate field is absent. -/
def undefEstimateIssue : Issue :=
  { repo_id := 1, repo_name := "r", number := 10, title := "A", state := "open",
    pull_request := false, milestone := some { title := "v1" },
    estimate := EstVal.undef, assignee := none, html_url := "uA" }

/-- A stage holding only that milestone-matching, estimate-less issue. -/
def undefEstimateStage : Stage :=
  { name := "In Progress", issues := [undefEstimateIssue] }

/-- A stage mixing the estimate-less issue with an estimated one. -/
def mixedStage : Stage :=
  { name := "In Progress", issues := [undefEstimateIssue, sampleIssueA] }

/-- A board with no declared pipelines. -/
def emptyBoard : Board :=
  { pipelines := [] }

theorem pushIssue_length (stages : List Stage) (j : Nat) (i : Issue) :
    (pushIssue stages j i).length = stages.length := by
  induction stages generalizing j with
  | nil => rfl
  | cons s rest ih =>
    cases j with
    | zero => rfl
    | succ n => simp [pushIssue, ih]

theorem pushIssue_map_name (stages : List Stage) (j : Nat) (i : Issue) :
    (pushIssue stages j i).map Stage.name = stages.map Stage.name := by
  induction stages generalizing j with
  | nil => rfl
  | cons s rest ih =>
    cases j with
    | zero => simp [pushIssue]
    | succ n => simp [pushIssue, ih]

theorem stageIssues_pushIssue (stages : List Stage) (j k : Nat) (i : Issue) :
    stageIssues (pushIssue stages j i) k =
      if j = k ∧ j < stages.length then stageIssues stages k ++ [i]
      else stageIssues stages k := by
  induction stages generalizing j k with
  | nil => simp [pushIssue, stageIssues]
  | cons s rest ih =>
    cases j with
    | zero =>
      cases k with
      | zero => simp [pushIssue, stageIssues]
      | succ k' => simp [pushIssue, stageIssues]
    | succ j' =>
      cases k with
      | zero => simp [pushIssue, stageIssues]
      | succ k' =>
        have := ih j' k'
        simp [pushIssue, stageIssues, this, Nat.succ_lt_succ_iff]

theorem classifyStep_length (m : IndexMap) (stages : List Stage) (i : Issue) :
    (classifyStep m stages i).length = stages.length := by
  unfold classifyStep
  by_cases hpr : i.pull_request = true
  · simp [hpr]
  · simp only [hpr, if_false]
    cases m (i.repo_id, i.number) with
    | none => simp [pushIssue_length]
    | some idx =>
      by_cases hs : i.state = "closed" <;> simp [hs, pushIssue_length]

theorem classifyStep_map_name (m : IndexMap) (stages : List Stage) (i : Issue) :
    (classifyStep m stages i).map Stage.name = stages.map Stage.name := by
  unfold classifyStep
  by_cases hpr : i.pull_request = true
  · simp [hpr]
  · simp only [hpr, if_false]
    cases m (i.repo_id, i.number) with
    | none => simp [pushIssue_map_name]
    | some idx =>
      by_cases hs : i.state = "closed" <;> simp [hs, pushIssue_map_name]

theorem routeIdx_le (m : IndexMap) (p : Nat)
    (hm : ∀ key idx, m key = some idx → idx < p) (i : Issue) :
    routeIdx m p i ≤ p := by
  unfold routeIdx
  cases hmk : m (i.repo_id, i.number) with
  | none => exact Nat.le_refl p
  | some idx =>
    by_cases hs : i.state = "closed"
    · simp [hs]
    · simp only [ne_eq, hs, not_false_eq_true, if_true]
      exact Nat.le_of_lt (hm _ _ hmk)

theorem classifyStep_eq_pushIssue (m : IndexMap) (p : Nat) (stages : List Stage)
    (hlen : stages.length = p + 1) (i : Issue) (hpr : i.pull_request = false) :
    classifyStep m stages i = pushIssue stages (routeIdx m p i) i := by
  unfold classifyStep routeIdx
  have hp : stages.length - 1 = p := by omega
  rw [hpr]
  simp only [Bool.false_eq_true, if_false, hp]
  cases m (i.repo_id, i.number) with
  | none => rfl
  | some idx => by_cases hs : i.state = "closed" <;> simp [hs]

theorem stageIssues_classifyStep (m : IndexMap) (p : Nat) (stages : List Stage)
    (hlen : stages.length = p + 1)
    (hm : ∀ key idx, m key = some idx → idx < p) (i : Issue) (k : Nat) :
    stageIssues (classifyStep m stages i) k =
      stageIssues stages k ++ (if routedTo m p k i then [i] else []) := by
  unfold routedTo
  cases hpr : i.pull_request with
  | true =>
    have hstep : classifyStep m stages i = stages := by
      unfold classifyStep; rw [hpr]; simp
    rw [hstep]
    simp
  | false =>
    rw [classifyStep_eq_pushIssue m p stages hlen i hpr, stageIssues_pushIssue]
    have hlt : routeIdx m p i < stages.length := by
      have := routeIdx_le m p hm i
      omega
    by_cases hk : routeIdx m p i = k
    · simp [hk, hlt, hk ▸ hlt]
    · simp [hk, Ne.symm hk]

theorem stageIssues_classify (m : IndexMap) (p : Nat)
    (hm : ∀ key idx, m key = some idx → idx < p) (issues : List Issue)
    (stages : List Stage) (hlen : stages.length = p + 1) (k : Nat) :
    stageIssues (classify m stages issues) k =
      stageIssues stages k ++ issues.filter (routedTo m p k) := by
  induction issues generalizing stages with
  | nil => simp [classify]
  | cons i rest ih =>
    have hlen' : (classifyStep m stages i).length = p + 1 := by
      rw [classifyStep_length]; exact hlen
    have hstep := stageIssues_classifyStep m p stages hlen hm i k
    show stageIssues (classify m (classifyStep m stages i) rest) k = _
    rw [ih (classifyStep m stages i) hlen', hstep, List.append_assoc]
    by_cases hi : routedTo m p k i
    · simp [List.filter_cons, hi]
    · simp [List.filter_cons, hi]

theorem classify_length (m : IndexMap) (stages : List Stage) (issues : List Issue) :
    (classify m stages issues).length = stages.length := by
  induction issues generalizing stages with
  | nil => rfl
  | cons i rest ih =>
    show (classify m (classifyStep m stages i) rest).length = _
    rw [ih, classifyStep_length]

theorem classify_map_name (m : IndexMap) (stages : List Stage) (issues : List Issue) :
    (classify m stages issues).map Stage.name = stages.map Stage.name := by
  induction issues generalizing stages with
  | nil => rfl
  | cons i rest ih =>
    show (classify m (classifyStep m stages i) rest).map Stage.name = _
    rw [ih, classifyStep_map_name]

theorem stageIssues_of_all_empty (stages : List Stage)
    (h : ∀ s ∈ stages, s.issues = []) (k : Nat) : stageIssues stages k = [] := by
  induction stages generalizing k with
  | nil => rfl
  | cons s rest ih =>
    cases k with
    | zero => exact h s (List.mem_cons_self s rest)
    | succ n => exact ih (fun t ht => h t (List.mem_cons_of_mem s ht)) n

theorem richPipelines_length (b : Board) :
    (richPipelines b).length = b.pipelines.length + 1 := by
  simp [richPipelines]

theorem stageIssues_richPipelines (b : Board) (k : Nat) :
    stageIssues (richPipelines b) k = [] := by
  apply stageIssues_of_all_empty
  intro s hs
  unfold richPipelines at hs
  rcases List.mem_append.mp hs with h | h
  · rcases List.mem_map.mp h with ⟨p, _, rfl⟩; rfl
  · simp at h; rw [h]

theorem writeFold_lookup (idx : Nat) (ms : List StageMembership) (m : IndexMap)
    (key : Nat × Nat) :
    (ms.foldl (writeEntry idx) m) key =
      if ms.any (fun s => (s.repo_id, s.issue_number) == key) then some idx else m key := by
  induction ms generalizing m with
  | nil => simp
  | cons s rest ih =>
    simp only [List.foldl_cons, List.any_cons]
    rw [ih]
    by_cases hk : (s.repo_id, s.issue_number) = key
    · by_cases hr : rest.any (fun t => (t.repo_id, t.issue_number) == key) = true
      · simp [hr, hk]
      · simp [hr, hk, writeEntry]
    · by_cases hr : rest.any (fun t => (t.repo_id, t.issue_number) == key) = true
      · simp [hr, hk]
      · simp only [hr, if_false, Bool.or_false]
        have hk' : ¬ key = (s.repo_id, s.issue_number) := fun h => hk h.symm
        simp [hk, hk', writeEntry]

theorem writeFold_bound (idx : Nat) (ms : List StageMembership) (m : IndexMap)
    (key : Nat × Nat) (v : Nat)
    (h : (ms.foldl (writeEntry idx) m) key = some v) : m key = some v ∨ v = idx := by
  rw [writeFold_lookup] at h
  by_cases ha : ms.any (fun s => (s.repo_id, s.issue_number) == key) = true
  · rw [if_pos ha] at h
    right
    exact (Option.some.injEq _ _ ▸ h).symm
  · rw [if_neg ha] at h
    left
    exact h

theorem repoIssuePipelineMapFrom_bound (ps : List PipelineDef) (idx : Nat) (m : IndexMap)
    (hmb : ∀ key v, m key = some v → v < idx + ps.length) :
    ∀ key v, repoIssuePipelineMapFrom idx ps m key = some v → v < idx + ps.length := by
  induction ps generalizing idx m with
  | nil => exact hmb
  | cons p rest ih =>
    intro key v h
    have hstep : ∀ key v, (p.issues.foldl (writeEntry idx) m) key = some v →
        v < (idx + 1) + rest.length := by
      intro k w hw
      rcases writeFold_bound idx p.issues m k w hw with h1 | h1
      · have := hmb k w h1
        simp only [List.length_cons] at this
        omega
      · omega
    have := ih (idx + 1) _ hstep key v h
    simp only [List.length_cons]
    omega

theorem repoIssuePipelineMap_lt (b : Board) :
    ∀ key idx, repoIssuePipelineMap b key = some idx → idx < b.pipelines.length := by
  intro key idx h
  have init : ∀ (key : Nat × Nat) (v : Nat), (fun _ => (none : Option Nat)) key = some v →
      v < 0 + b.pipelines.length := by
    intro k v hv
    simp at hv
  have := repoIssuePipelineMapFrom_bound b.pipelines 0 (fun _ => none) init key idx h
  omega

theorem lastContainingFrom_cons (idx : Nat) (key : Nat × Nat) (p : PipelineDef)
    (ps : List PipelineDef) :
    lastContainingFrom idx key (p :: ps) =
      match lastContainingFrom (idx + 1) key ps with
      | some j => some j
      | none => if memberOfPipeline key p then some idx else none := rfl

theorem repoIssuePipelineMapFrom_eq_lastContaining (ps : List PipelineDef) (idx : Nat)
    (m : IndexMap) (key : Nat × Nat) :
    repoIssuePipelineMapFrom idx ps m key =
      match lastContainingFrom idx key ps with
      | some j => some j
      | none => m key := by
  induction ps generalizing idx m with
  | nil => rfl
  | cons p rest ih =>
    show repoIssuePipelineMapFrom (idx + 1) rest (p.issues.foldl (writeEntry idx) m) key = _
    rw [ih (idx + 1), lastContainingFrom_cons]
    cases hlc : lastContainingFrom (idx + 1) key rest with
    | some j => rfl
    | none =>
      show (p.issues.foldl (writeEntry idx) m) key = _
      rw [writeFold_lookup]
      by_cases h : memberOfPipeline key p = true
      · rw [if_pos h]
        rw [show (p.issues.any fun s => (s.repo_id, s.issue_number) == key) = true from h]
        rfl
      · rw [if_neg h]
        rw [show (p.issues.any fun s => (s.repo_id, s.issue_number) == key) = false from
          Bool.eq_false_iff.mpr h]
        rfl

theorem flatten_of_all_empty (l : List (List Issue)) (h : ∀ x ∈ l, x = []) :
    l.flatten = [] := by
  induction l with
  | nil => rfl
  | cons x rest ih =>
    rw [List.flatten_cons, h x (List.mem_cons_self x rest),
      ih (fun y hy => h y (List.mem_cons_of_mem x hy))]
    rfl

theorem flatten_richPipelines (b : Board) :
    ((richPipelines b).map Stage.issues).flatten = [] := by
  apply flatten_of_all_empty
  intro x hx
  rcases List.mem_map.mp hx with ⟨s, hs, rfl⟩
  unfold richPipelines at hs
  rcases List.mem_append.mp hs with h | h
  · rcases List.mem_map.mp h with ⟨p, _, rfl⟩; rfl
  · simp at h; rw [h]

theorem flatten_pushIssue_perm (stages : List Stage) (j : Nat) (i : Issue)
    (h : j < stages.length) :
    List.Perm (((pushIssue stages j i).map Stage.issues).flatten)
      ((stages.map Stage.issues).flatten ++ [i]) := by
  induction stages generalizing j with
  | nil => simp at h
  | cons s rest ih =>
    cases j with
    | zero =>
      simp only [pushIssue, List.map_cons, List.flatten_cons, List.append_assoc]
      exact List.Perm.append_left s.issues (List.perm_append_comm)
    | succ n =>
      simp only [pushIssue, List.map_cons, List.flatten_cons]
      have hn : n < rest.length := by simpa [Nat.succ_lt_succ_iff] using h
      have h1 : List.Perm (s.issues ++ ((pushIssue rest n i).map Stage.issues).flatten)
          (s.issues ++ ((rest.map Stage.issues).flatten ++ [i])) :=
        List.Perm.append_left s.issues (ih n hn)
      have h2 : s.issues ++ ((rest.map Stage.issues).flatten ++ [i])
          = s.issues ++ (rest.map Stage.issues).flatten ++ [i] :=
        (List.append_assoc _ _ _).symm
      rw [h2] at h1
      exact h1

theorem flatten_classify_perm (m : IndexMap) (p : Nat)
    (hm : ∀ key idx, m key = some idx → idx < p) (issues : List Issue)
    (stages : List Stage) (hlen : stages.length = p + 1) :
    List.Perm (((classify m stages issues).map Stage.issues).flatten)
      ((stages.map Stage.issues).flatten ++ issues.filter (fun i => !i.pull_request)) := by
  induction issues generalizing stages with
  | nil => simp [classify]
  | cons i rest ih =>
    show List.Perm (((classify m (classifyStep m stages i) rest).map Stage.issues).flatten) _
    have hlen' : (classifyStep m stages i).length = p + 1 := by
      rw [classifyStep_length]; exact hlen
    cases hpr : i.pull_request with
    | true =>
      have hstep : classifyStep m stages i = stages := by
        unfold classifyStep; rw [hpr]; simp
      rw [hstep]
      have := ih stages hlen
      simpa [List.filter_cons, hpr] using this
    | false =>
      rw [classifyStep_eq_pushIssue m p stages hlen i hpr]
      have hlt : routeIdx m p i < stages.length := by
        have := routeIdx_le m p hm i
        omega
      have h1 := ih (pushIssue stages (routeIdx m p i) i) (by rw [pushIssue_length]; exact hlen)
      have h2 := List.Perm.append_right (rest.filter (fun x => !x.pull_request))
        (flatten_pushIssue_perm stages (routeIdx m p i) i hlt)
      have h3 := h1.trans h2
      have heq : ((stages.map Stage.issues).flatten ++ [i]) ++ rest.filter (fun x => !x.pull_request)
          = (stages.map Stage.issues).flatten ++ (i :: rest).filter (fun x => !x.pull_request) := by
        rw [List.append_assoc, List.filter_cons]
        simp [hpr]
      rw [heq] at h3
      exact h3

theorem numericShape_jsAdd (a x : JVal) (ha : a.numericShape = true) :
    (jsAdd a x).numericShape = true := by
  cases a <;> cases x <;> simp_all [jsAdd, JVal.numericShape]

theorem jsAdd_comm (a b : JVal) : jsAdd a b = jsAdd b a := by
  cases a <;> cases b <;> simp [jsAdd] <;> ring

theorem jsAdd_right_comm (a b x : JVal) (ha : a.numericShape = true)
    (hb : b.numericShape = true) :
    jsAdd (jsAdd a x) b = jsAdd (jsAdd a b) x := by
  cases a <;> cases b <;> cases x <;> simp_all [jsAdd, JVal.numericShape] <;> ring

theorem jsAdd_assoc_shape (a b x : JVal) (ha : a.numericShape = true)
    (hb : b.numericShape = true) :
    jsAdd a (jsAdd b x) = jsAdd (jsAdd a b) x := by
  cases a <;> cases b <;> cases x <;> simp_all [jsAdd, JVal.numericShape] <;> ring

theorem statsStep_done (target : String) (st : Stats) (s : Stage)
    (h : s.name = "Done" ∨ s.name = "Closed") :
    statsStep target st s
      = { st with closedPoints := jsAdd st.closedPoints (totalPoints target s) } := by
  unfold statsStep
  rw [if_pos h]

theorem statsStep_other (target : String) (st : Stats) (s : Stage)
    (h : ¬(s.name = "Done" ∨ s.name = "Closed")) :
    statsStep target st s
      = { st with openPoints := jsAdd st.openPoints (totalPoints target s) } := by
  unfold statsStep
  rw [if_neg h]

theorem aggregate_fold_total (target : String) (stages : List Stage) (st : Stats)
    (ho : st.openPoints.numericShape = true) (hc : st.closedPoints.numericShape = true) :
    jsAdd (stages.foldl (statsStep target) st).openPoints
        (stages.foldl (statsStep target) st).closedPoints
      = (stages.map (totalPoints target)).foldl jsAdd (jsAdd st.openPoints st.closedPoints) := by
  induction stages generalizing st with
  | nil => rfl
  | cons s rest ih =>
    simp only [List.foldl_cons, List.map_cons]
    by_cases hname : s.name = "Done" ∨ s.name = "Closed"
    · rw [statsStep_done target st s hname]
      rw [ih { st with closedPoints := jsAdd st.closedPoints (totalPoints target s) } ho
        (numericShape_jsAdd _ _ hc)]
      congr 1
      exact jsAdd_assoc_shape _ _ _ ho hc
    · rw [statsStep_other target st s hname]
      rw [ih { st with openPoints := jsAdd st.openPoints (totalPoints target s) }
        (numericShape_jsAdd _ _ ho) hc]
      congr 1
      exact jsAdd_right_comm _ _ _ ho hc

theorem aggregate_fold_open (target : String) (stages : List Stage) (st : Stats) :
    (stages.foldl (statsStep target) st).openPoints =
      ((stages.filter (fun s => !(s.name == "Done" || s.name == "Closed"))).map
        (totalPoints target)).foldl jsAdd st.openPoints := by
  induction stages generalizing st with
  | nil => rfl
  | cons s rest ih =>
    simp only [List.foldl_cons, List.filter_cons]
    by_cases hname : s.name = "Done" ∨ s.name = "Closed"
    · have hb : (!(s.name == "Done" || s.name == "Closed")) = false := by
        rcases hname with h | h <;> simp [h]
      rw [statsStep_done target st s hname, hb]
      simp only [Bool.false_eq_true, if_false]
      exact ih _
    · have hb : (!(s.name == "Done" || s.name == "Closed")) = true := by
        push_neg at hname
        simp [hname.1, hname.2]
      rw [statsStep_other target st s hname, hb]
      simp only [if_true, List.map_cons, List.foldl_cons]
      exact ih _

theorem aggregate_fold_closed (target : String) (stages : List Stage) (st : Stats) :
    (stages.foldl (statsStep target) st).closedPoints =
      ((stages.filter (fun s => s.name == "Done" || s.name == "Closed")).map
        (totalPoints target)).foldl jsAdd st.closedPoints := by
  induction stages generalizing st with
  | nil => rfl
  | cons s rest ih =>
    simp only [List.foldl_cons, List.filter_cons]
    by_cases hname : s.name = "Done" ∨ s.name = "Closed"
    · have hb : (s.name == "Done" || s.name == "Closed") = true := by
        rcases hname with h | h <;> simp [h]
      rw [statsStep_done target st s hname, hb]
      simp only [if_true, List.map_cons, List.foldl_cons]
      exact ih _
    · have hb : (s.name == "Done" || s.name == "Closed") = false := by
        push_neg at hname
        simp [hname.1, hname.2]
      rw [statsStep_other target st s hname, hb]
      simp only [Bool.false_eq_true, if_false]
      exact ih _

theorem baseSum_num (l : List EstVal) (a : Int) :
    baseSum (JVal.num a) l = JVal.num (a + numPart l) := by
  induction l generalizing a with
  | nil => simp [baseSum, numPart]
  | cons v rest ih =>
    cases v with
    | undef =>
      show baseSum (JVal.num a) rest = _
      rw [ih]
      simp [numPart]
    | null =>
      show baseSum (jsAdd (JVal.num a) EstVal.null.toJVal) rest = _
      rw [show jsAdd (JVal.num a) EstVal.null.toJVal = JVal.num a from rfl, ih]
      simp [numPart]
    | num n =>
      show baseSum (jsAdd (JVal.num a) (EstVal.num n).toJVal) rest = _
      rw [show jsAdd (JVal.num a) (EstVal.num n).toJVal = JVal.num (a + n) from rfl, ih]
      simp only [numPart, JVal.num.injEq]
      ring

theorem baseSum_seed (l : List EstVal) (h : hasNum l = true) :
    baseSum JVal.undef l = JVal.num (numPart l)
      ∧ baseSum JVal.null l = JVal.num (numPart l) := by
  induction l with
  | nil => simp [hasNum] at h
  | cons v rest ih =>
    cases v with
    | undef =>
      have h' : hasNum rest = true := h
      constructor
      · show baseSum JVal.undef rest = _
        rw [(ih h').1]
        simp [numPart]
      · show baseSum JVal.null rest = _
        rw [(ih h').2]
        simp [numPart]
    | null =>
      have h' : hasNum rest = true := h
      constructor
      · show baseSum JVal.null rest = _
        rw [(ih h').2]
        simp [numPart]
      · show baseSum (jsAdd JVal.null EstVal.null.toJVal) rest = _
        rw [show jsAdd JVal.null EstVal.null.toJVal = JVal.num 0 from rfl, baseSum_num]
        simp [numPart]
    | num n =>
      constructor
      · show baseSum (JVal.num n) rest = _
        rw [baseSum_num]
        simp [numPart]
      · show baseSum (jsAdd JVal.null (EstVal.num n).toJVal) rest = _
        rw [show jsAdd JVal.null (EstVal.num n).toJVal = JVal.num n from rfl, baseSum_num]
        simp [numPart]

theorem sumBy_hasNum (l : List EstVal) (h : hasNum l = true) :
    sumBy l = JVal.num (numPart l) := by
  cases l with
  | nil => simp [hasNum] at h
  | cons v rest =>
    unfold sumBy
    rw [show (v :: rest).isEmpty = false from rfl]
    simp only [Bool.false_eq_true, if_false]
    exact (baseSum_seed _ h).1

theorem classify_filter_pr (m : IndexMap) (stages : List Stage) (issues : List Issue) :
    classify m stages (issues.filter (fun i => !i.pull_request)) = classify m stages issues := by
  induction issues generalizing stages with
  | nil => rfl
  | cons i rest ih =>
    rw [List.filter_cons]
    cases hpr : i.pull_request with
    | true =>
      have hstep : classifyStep m stages i = stages := by
        unfold classifyStep
        rw [hpr]
        simp
      simp only [hpr, Bool.not_true, Bool.false_eq_true, if_false]
      show classify m stages (rest.filter _) = classify m (classifyStep m stages i) rest
      rw [hstep]
      exact ih stages
    | false =>
      simp only [hpr, Bool.not_false, if_true]
      show classify m (classifyStep m stages i) (rest.filter _)
          = classify m (classifyStep m stages i) rest
      exact ih _

/-- Claim C1 (exhaustive partition): every non-pull-request issue of the
input appears in exactly one stage's issue list after classification, and
the concatenation of all stage issue lists is a permutation of the
non-pull-request part of the input, so the union of the stage lists (by
identity) is exactly the non-pull-request input set. -/
theorem exhaustive_partition (b : Board) (issues : List Issue) :
    (∀ i, i ∈ issues → i.pull_request = false →
        ∃! j, i ∈ stageIssues (classify (repoIssuePipelineMap b) (richPipelines b) issues) j)
      ∧ List.Perm
        (((classify (repoIssuePipelineMap b) (richPipelines b) issues).map Stage.issues).flatten)
        (issues.filter (fun i => !i.pull_request)) := by
  have hm := repoIssuePipelineMap_lt b
  have hlen := richPipelines_length b
  constructor
  · intro i hi hpr
    refine ⟨routeIdx (repoIssuePipelineMap b) b.pipelines.length i, ?_, ?_⟩
    · show i ∈ stageIssues (classify (repoIssuePipelineMap b) (richPipelines b) issues)
        (routeIdx (repoIssuePipelineMap b) b.pipelines.length i)
      rw [stageIssues_classify _ _ hm issues _ hlen, stageIssues_richPipelines]
      simp only [List.nil_append]
      refine List.mem_filter.mpr ⟨hi, ?_⟩
      simp [routedTo, hpr]
    · intro j hj
      rw [stageIssues_classify _ _ hm issues _ hlen, stageIssues_richPipelines] at hj
      simp only [List.nil_append] at hj
      have hmem := (List.mem_filter.mp hj).2
      simp only [routedTo, hpr, Bool.not_false, Bool.true_and, beq_iff_eq] at hmem
      exact hmem.symm
  · have hperm := flatten_classify_perm (repoIssuePipelineMap b) b.pipelines.length hm issues
      (richPipelines b) hlen
    rw [flatten_richPipelines] at hperm
    simpa using hperm

/-- Witness for C1 at the sample board and issues: issue A is a
non-pull-request input issue sitting in exactly one stage. -/
theorem exhaustive_partition_witness :
    (sampleIssueA ∈ sampleIssues ∧ sampleIssueA.pull_request = false)
      ∧ ∃! j, sampleIssueA ∈ stageIssues
        (classify (repoIssuePipelineMap sampleBoard) (richPipelines sampleBoard) sampleIssues) j :=
  ⟨⟨by decide, by decide⟩,
    (exhaustive_partition sampleBoard sampleIssues).1 sampleIssueA (by decide) (by decide)⟩

/-- Claim C2 (classification routing): a non-pull-request issue found in
the index with a state other than "closed" lands in the stage at the
indexed position; one not found, or found but closed, lands in the stage
at position P, the number of declared pipelines. -/
theorem classification_routing (b : Board) (issues : List Issue) (i : Issue)
    (hi : i ∈ issues) (hpr : i.pull_request = false) :
    (∀ idx, repoIssuePipelineMap b (i.repo_id, i.number) = some idx → i.state ≠ "closed" →
        i ∈ stageIssues (classify (repoIssuePipelineMap b) (richPipelines b) issues) idx)
      ∧ (repoIssuePipelineMap b (i.repo_id, i.number) = none ∨ i.state = "closed" →
        i ∈ stageIssues (classify (repoIssuePipelineMap b) (richPipelines b) issues)
          b.pipelines.length) := by
  have hm := repoIssuePipelineMap_lt b
  have hlen := richPipelines_length b
  constructor
  · intro idx hidx hstate
    rw [stageIssues_classify _ _ hm issues _ hlen, stageIssues_richPipelines]
    simp only [List.nil_append]
    refine List.mem_filter.mpr ⟨hi, ?_⟩
    simp [routedTo, hpr, routeIdx, hidx, hstate]
  · intro hclosed
    rw [stageIssues_classify _ _ hm issues _ hlen, stageIssues_richPipelines]
    simp only [List.nil_append]
    refine List.mem_filter.mpr ⟨hi, ?_⟩
    rcases hclosed with h | h
    · simp [routedTo, hpr, routeIdx, h]
    · cases hmk : repoIssuePipelineMap b (i.repo_id, i.number) with
      | none => simp [routedTo, hpr, routeIdx, hmk]
      | some idx => simp [routedTo, hpr, routeIdx, hmk, h]

/-- Witness for C2: sample issue C is closed and absent from the index,
and indeed lands in the stage at position P = 2. -/
theorem classification_routing_witness :
    (sampleIssueC ∈ sampleIssues ∧ sampleIssueC.pull_request = false
        ∧ (repoIssuePipelineMap sampleBoard (sampleIssueC.repo_id, sampleIssueC.number) = none
          ∨ sampleIssueC.state = "closed"))
      ∧ sampleIssueC ∈ stageIssues
        (classify (repoIssuePipelineMap sampleBoard) (richPipelines sampleBoard) sampleIssues)
        sampleBoard.pipelines.length :=
  ⟨⟨by decide, by decide, by decide⟩,
    (classification_routing sampleBoard sampleIssues sampleIssueC (by decide)
      (by decide)).2 (by decide)⟩

/-- Claim C3 (totals consistency): after the single aggregation pass,
open plus closed equals the fold of the JS + operator over the
totalPoints of all stages, closed collecting exactly the stages named
"Done" or "Closed" and open all the others. -/
theorem totals_consistency (target : String) (stages : List Stage) :
    jsAdd (aggregate target stages).openPoints (aggregate target stages).closedPoints
        = sumJVals (stages.map (totalPoints target))
      ∧ (aggregate target stages).openPoints
        = sumJVals ((stages.filter (fun s => !(s.name == "Done" || s.name == "Closed"))).map
          (totalPoints target))
      ∧ (aggregate target stages).closedPoints
        = sumJVals ((stages.filter (fun s => s.name == "Done" || s.name == "Closed")).map
          (totalPoints target)) := by
  refine ⟨?_, ?_, ?_⟩
  · have h := aggregate_fold_total target stages (Stats.mk (JVal.num 0) (JVal.num 0)) rfl rfl
    simpa [aggregate, sumJVals, jsAdd] using h
  · have h := aggregate_fold_open target stages (Stats.mk (JVal.num 0) (JVal.num 0))
    simpa [aggregate, sumJVals] using h
  · have h := aggregate_fold_closed target stages (Stats.mk (JVal.num 0) (JVal.num 0))
    simpa [aggregate, sumJVals] using h

/-- Claim C4 (milestone filter): an issue of a stage is retained in the
filtered list iff it has a milestone whose title is exactly the target;
an issue without a milestone is excluded from the filtered list (hence
from the totals, which sum only over it) but stays in the stage's list. -/
theorem milestone_filter (target : String) (s : Stage) (i : Issue) (hi : i ∈ s.issues) :
    (i ∈ milestoneIssues target s ↔ ∃ ms, i.milestone = some ms ∧ ms.title = target)
      ∧ (i.milestone = none → i ∉ milestoneIssues target s ∧ i ∈ s.issues) := by
  constructor
  · constructor
    · intro h
      have hmatch := (List.mem_filter.mp h).2
      unfold milestoneMatch at hmatch
      cases hms : i.milestone with
      | none => rw [hms] at hmatch; simp at hmatch
      | some ms =>
        rw [hms] at hmatch
        simp only [beq_iff_eq] at hmatch
        exact ⟨ms, rfl, hmatch⟩
    · rintro ⟨ms, hms, ht⟩
      refine List.mem_filter.mpr ⟨hi, ?_⟩
      unfold milestoneMatch
      rw [hms]
      simp [ht]
  · intro hnone
    refine ⟨?_, hi⟩
    intro h
    have hmatch := (List.mem_filter.mp h).2
    unfold milestoneMatch at hmatch
    rw [hnone] at hmatch
    simp at hmatch

/-- Witness for C4: the estimate-less issue has milestone v1, sits in its
stage, and the retained-iff-matching equivalence holds there. -/
theorem milestone_filter_witness :
    undefEstimateIssue ∈ undefEstimateStage.issues
      ∧ (undefEstimateIssue ∈ milestoneIssues "v1" undefEstimateStage
        ↔ ∃ ms, undefEstimateIssue.milestone = some ms ∧ ms.title = "v1") :=
  ⟨by decide, (milestone_filter "v1" undefEstimateStage undefEstimateIssue (by decide)).1⟩

/-- C5 counterexample: a stage whose only milestone-matching issue has an
absent estimate gets totalPoints undefined, not the claimed 0 (the sum of
present numeric estimates is 0 here), even though the issue is in the
filtered list. -/
theorem default_zero_counterexample :
    totalPoints "v1" undefEstimateStage = JVal.undef
      ∧ totalPoints "v1" undefEstimateStage ≠ JVal.num 0
      ∧ numericEstimateSum (milestoneIssues "v1" undefEstimateStage) = 0
      ∧ milestoneIssues "v1" undefEstimateStage = [undefEstimateIssue] := by
  refine ⟨by decide, by decide, by decide, by decide⟩

/-- Claim C5 as amended (default-zero for missing estimate): in a stage
where at least one milestone-matching issue has a present numeric
estimate, a matching issue with an absent or null estimate contributes
exactly 0 — the stage total is the sum of the present numeric estimates —
and every matching issue is still listed in the rendered body (its URL
line appears). When no matching issue has a numeric estimate the total is
produced by lodash sumBy and can be undefined or null instead of 0. -/
theorem default_zero_amended (target : String) (s : Stage)
    (h : hasNum ((milestoneIssues target s).map Issue.estimate) = true) :
    totalPoints target s = JVal.num (numericEstimateSum (milestoneIssues target s))
      ∧ ∀ i ∈ milestoneIssues target s, i.html_url ∈ stageLines target s := by
  constructor
  · unfold totalPoints numericEstimateSum
    exact sumBy_hasNum _ h
  · intro i hiMem
    have hne : (milestoneIssues target s).isEmpty = false := by
      cases hmi : milestoneIssues target s with
      | nil => rw [hmi] at hiMem; simp at hiMem
      | cons a rest => rfl
    have hfl : i.html_url ∈ ((milestoneIssues target s).map issueLines).flatten := by
      rw [List.mem_flatten]
      exact ⟨issueLines i, List.mem_map_of_mem issueLines hiMem, by simp [issueLines]⟩
    unfold stageLines
    rw [hne]
    simp only [Bool.false_eq_true, if_false, List.mem_append, List.mem_cons]
    simp [hfl]

/-- Witness for C5's amended claim at a stage holding one estimated and
one estimate-less matching issue: the total is the numeric sum 3 and the
estimate-less issue is still listed. -/
theorem default_zero_witness :
    hasNum ((milestoneIssues "v1" mixedStage).map Issue.estimate) = true
      ∧ totalPoints "v1" mixedStage
        = JVal.num (numericEstimateSum (milestoneIssues "v1" mixedStage))
      ∧ undefEstimateIssue ∈ milestoneIssues "v1" mixedStage
      ∧ undefEstimateIssue.html_url ∈ stageLines "v1" mixedStage :=
  ⟨by decide, (default_zero_amended "v1" mixedStage (by decide)).1, by decide,
    (default_zero_amended "v1" mixedStage (by decide)).2 undefEstimateIssue (by decide)⟩

/-- Claim C6 (index last-wins): the finished index maps every identity to
the position of the last pipeline in board order whose declared issue
list contains it, and to nothing when none does; being a mapping, it
holds at most one position per identity. -/
theorem index_last_wins (b : Board) (key : Nat × Nat) :
    repoIssuePipelineMap b key = lastContainingFrom 0 key b.pipelines := by
  unfold repoIssuePipelineMap
  rw [repoIssuePipelineMapFrom_eq_lastContaining]
  cases lastContainingFrom 0 key b.pipelines with
  | none => rfl
  | some j => rfl

/-- Claim C7 (pull request exclusion): dropping the pull-request issues
from the input leaves the whole rendered report unchanged — they are
counted nowhere — and a pull-request issue is in no stage's issue list. -/
theorem pull_request_exclusion (target : String) (b : Board) (issues : List Issue) :
    mainOutput target b (issues.filter (fun i => !i.pull_request)) = mainOutput target b issues
      ∧ ∀ i, i.pull_request = true →
        ∀ j, i ∉ stageIssues (classify (repoIssuePipelineMap b) (richPipelines b) issues) j := by
  constructor
  · unfold mainOutput
    rw [classify_filter_pr]
  · intro i hpr j h
    rw [stageIssues_classify _ _ (repoIssuePipelineMap_lt b) issues _ (richPipelines_length b),
      stageIssues_richPipelines] at h
    simp only [List.nil_append] at h
    have hmem := (List.mem_filter.mp h).2
    simp [routedTo, hpr] at hmem

/-- Witness for C7: the sample pull request lands in no stage of its
board. -/
theorem pull_request_exclusion_witness :
    sampleIssueD.pull_request = true
      ∧ sampleIssueD ∉ stageIssues
        (classify (repoIssuePipelineMap sampleBoard) (richPipelines sampleBoard) [sampleIssueD]) 0 :=
  ⟨by decide,
    (pull_request_exclusion "v1" sampleBoard [sampleIssueD]).2 sampleIssueD (by decide) 0⟩

/-- Claim C8 (synthetic Closed stage): the stage list handed to
aggregation carries the declared pipeline names in board order followed
by exactly one appended "Closed" stage, unconditionally (for every board,
whatever its pipeline names). -/
theorem synthetic_closed_stage (b : Board) (issues : List Issue) :
    (classify (repoIssuePipelineMap b) (richPipelines b) issues).map Stage.name
      = b.pipelines.map PipelineDef.name ++ ["Closed"] := by
  rw [classify_map_name]
  unfold richPipelines
  rw [List.map_append, List.map_map]
  rfl

/-- C9 counterexample: at the empty board with no issues, the script's
output differs from the spec renderer with a truly blank separator line —
the script prints a line holding one space after each stage body. -/
theorem report_format_counterexample :
    mainOutput "v1" emptyBoard []
      ≠ specRender ""
        (stageSections "v1" (classify (repoIssuePipelineMap emptyBoard) (richPipelines emptyBoard) []))
        (aggregate "v1" (classify (repoIssuePipelineMap emptyBoard) (richPipelines emptyBoard) [])).openPoints
        (aggregate "v1" (classify (repoIssuePipelineMap emptyBoard) (richPipelines emptyBoard) [])).closedPoints := by
  decide

/-- Claim C9 as amended (rendered report format): the script's output is
exactly the spec's renderer — header "name - totalPoints Points", a dash
underline of the header's length, body ("None" when the filtered list is
empty, else per issue the detail line and the URL line), a separator line
after each stage holding a single space (not an empty line), and the
final "Total: open / open + closed" line. -/
theorem report_format (target : String) (b : Board) (issues : List Issue) :
    mainOutput target b issues
      = specRender " "
        (stageSections target (classify (repoIssuePipelineMap b) (richPipelines b) issues))
        (aggregate target (classify (repoIssuePipelineMap b) (richPipelines b) issues)).openPoints
        (aggregate target (classify (repoIssuePipelineMap b) (richPipelines b) issues)).closedPoints := by
  unfold mainOutput reportLines specRender stageSections totalLine
  rw [List.map_map]
  congr 1
  rw [jsAdd_comm]

/-- Claim C10 (order preservation): every stage's issue list is a sublist
of the flat input collection (so in the same relative order), and every
stage's milestone-filtered list is a sublist of that stage's issue list. -/
theorem order_preservation (target : String) (b : Board) (issues : List Issue) :
    (∀ j, List.Sublist
        (stageIssues (classify (repoIssuePipelineMap b) (richPipelines b) issues) j) issues)
      ∧ ∀ s, s ∈ classify (repoIssuePipelineMap b) (richPipelines b) issues →
        List.Sublist (milestoneIssues target s) s.issues := by
  constructor
  · intro j
    rw [stageIssues_classify _ _ (repoIssuePipelineMap_lt b) issues _ (richPipelines_length b),
      stageIssues_richPipelines]
    simp only [List.nil_append]
    exact List.filter_sublist issues
  · intro s hs
    exact List.filter_sublist s.issues

/-- Witness for C10 at the sample board: the first classified stage is a
member of the stage list and its filtered list is a sublist of its issue
list. -/
theorem order_preservation_witness :
    List.Sublist
        (milestoneIssues "v1" { name := "In Progress", issues := [sampleIssueA] })
        (Stage.mk "In Progress" [sampleIssueA]).issues :=
  (order_preservation "v1" sampleBoard sampleIssues).2
    { name := "In Progress", issues := [sampleIssueA] } (by decide)

end ZenhubTools
